import Mathlib

/-!
Verification of the resolution engine of the Strapi service-navigation
editor extension (`src/extension.js`).

The JavaScript source is shallowly embedded: each function of the source is
translated into an executable Lean definition of the same name.  External
collaborators (the editor document, the workspace configuration and the
filesystem) are passed in explicitly:

* a document is a `List String` of its lines;
* the filesystem existence check `fs.existsSync` is a `String → Bool`;
* `fs.readFileSync` is a `String → Except String String` (error carries the
  exception message);
* the workspace root is an `Option String` and the configured source
  directory (`strapiServiceNavigation.srcPath`, default `"src"`) a `String`.

The regular expressions of the source are hand-compiled into character-list
scanners.  Every regex used by the source is unambiguous in the sense that
greedy matching with backtracking coincides with a deterministic one-pass
scan (each greedy class is disjoint from the character that follows it);
the only genuine backtracking point, the optional `async` keyword of the
definition-shape patterns, is translated as an explicit disjunction.
JavaScript `exec` loops with the `g` flag restart at the end of the
previous match; the scanner below does the same.
-/

namespace StrapiNav

/-! ## Character classes (JS regex classes over the ASCII range) -/

/-- JS `\w`: `[A-Za-z0-9_]`. -/
def isWordChar (c : Char) : Bool :=
  (c ≥ 'a' && c ≤ 'z') || (c ≥ 'A' && c ≤ 'Z') || (c ≥ '0' && c ≤ '9') || c = '_'

/-- The class `[\w$]` used for identifier words. -/
def isWordDollar (c : Char) : Bool :=
  isWordChar c || c = '$'

/-- The class `[A-Za-z_$]` (first character of an identifier). -/
def isIdentStart (c : Char) : Bool :=
  (c ≥ 'a' && c ≤ 'z') || (c ≥ 'A' && c ≤ 'Z') || c = '_' || c = '$'

/-- JS `\s` restricted to the ASCII whitespace actually reachable here. -/
def isSpaceChar (c : Char) : Bool :=
  c = ' ' || c = '\t' || c = '\n' || c = '\r' || c = '\x0b' || c = '\x0c'

def isDigitChar (c : Char) : Bool :=
  c ≥ '0' && c ≤ '9'

/-- The regex class `['"]`. -/
def quoteChar (c : Char) : Bool :=
  c = '\'' || c = '"'

/-! ## Generic string helpers -/

/-- Strip the literal `pat` from the front of `cs`; `none` if it is not
a prefix. -/
def dropLit : List Char → List Char → Option (List Char)
  | [], cs => some cs
  | _ :: _, [] => none
  | p :: ps, c :: cs => if c = p then dropLit ps cs else none

/-- Index of the first occurrence of `pat` in `cs` (`none` if absent). -/
def firstIdx : List Char → List Char → Option Nat
  | cs, pat =>
    match cs with
    | [] => if pat.isEmpty then some 0 else none
    | _ :: rest =>
      if (dropLit pat cs).isSome then some 0
      else (firstIdx rest pat).map (· + 1)

/-- JS `String.prototype.indexOf`: first index or `-1`. -/
def jsIndexOf (cs pat : List Char) : Int :=
  match firstIdx cs pat with
  | some i => (i : Int)
  | none => -1

/-- JS `indexOf(pat, from)`: first occurrence at or after `from`,
as an absolute index. -/
def jsIndexOfFrom (cs pat : List Char) (start : Nat) : Option Nat :=
  (firstIdx (cs.drop start) pat).map (start + ·)

/-- Index of the last occurrence of character `c` (JS `lastIndexOf`). -/
def lastIdxOfChar (cs : List Char) (c : Char) : Option Nat :=
  match firstIdx cs.reverse [c] with
  | some i => some (cs.length - 1 - i)
  | none => none

/-- Does `pat` occur as a contiguous substring of `cs`? -/
def containsSub : List Char → List Char → Bool
  | cs, pat =>
    match cs with
    | [] => (dropLit pat []).isSome
    | _ :: rest => (dropLit pat cs).isSome || containsSub rest pat

/-- JS `trimEnd` on a character list. -/
def trimEndList (cs : List Char) : List Char :=
  (cs.reverse.dropWhile isSpaceChar).reverse

/-- JS `String.prototype.split(sep)` for a non-empty separator, as a
kernel-computable function (`String.splitOn` of the library is
extensionally the same but does not reduce definitionally).  The fuel is
`length + 1`, which suffices because every step consumes a character. -/
def splitOnListAux (sep : List Char) : Nat → List Char → List Char → List String
  | 0, _, acc => [String.mk acc.reverse]
  | _ + 1, [], acc => [String.mk acc.reverse]
  | fuel + 1, c :: rest, acc =>
    match dropLit sep (c :: rest) with
    | some cs2 => String.mk acc.reverse :: splitOnListAux sep fuel cs2 []
    | none => splitOnListAux sep fuel rest (c :: acc)

def splitOnStr (s sep : String) : List String :=
  splitOnListAux (String.data sep) ((String.data s).length + 1) (String.data s) []

/-- JS `s.startsWith(pre)`. -/
def strStartsWith (s pre : String) : Bool :=
  (dropLit (String.data pre) (String.data s)).isSome

/-- JS truthiness fallback `s || d` for strings (empty string is falsy). -/
def jsOrS (s d : String) : String :=
  if s = "" then d else s

/-- JS `o || d` where `o` is a string-or-null. -/
def jsOr (o : Option String) (d : String) : String :=
  match o with
  | some s => if s = "" then d else s
  | none => d

/-- JS `s || null`. -/
def jsOrN (s : String) : Option String :=
  if s = "" then none else some s

/-- Node `path.join` on precomputed segments: empty segments are dropped
and the rest are joined with the separator.  (Node additionally
normalises `.`/`..` segments; none of the segments built by the source
contain those.) -/
def joinPath (parts : List String) : String :=
  String.intercalate "/" (parts.filter (fun s => !(s == "")))

/-- Node `path.basename`: the last `/`-separated component. -/
def baseName (p : String) : String :=
  (splitOnStr p "/").getLastD ""

/-! ## A generic `regex.exec` loop

`scanAllFuel tryAt fuel i cs` finds all matches of the hand-compiled
matcher `tryAt` in `cs`, scanning left to right and — like a JS `g`-flag
`exec` loop — resuming after the end of each match.  `tryAt` returns the
captured payload together with the length of the whole match (always
positive for the matchers below).  `fuel` bounds the recursion; the
top-level wrapper passes the list length, which suffices because every
step consumes at least one character. -/

def scanAllFuel {α : Type} (tryAt : List Char → Option (α × Nat)) :
    Nat → Nat → List Char → List (Nat × α × Nat)
  | 0, _, _ => []
  | _ + 1, _, [] => []
  | fuel + 1, i, c :: rest =>
    match tryAt (c :: rest) with
    | some (a, len) => (i, a, len) :: scanAllFuel tryAt fuel (i + len) (rest.drop (len - 1))
    | none => scanAllFuel tryAt fuel (i + 1) rest

/-- All matches of `tryAt` in `cs`, with start index and length. -/
def scanAll {α : Type} (tryAt : List Char → Option (α × Nat)) (cs : List Char) :
    List (Nat × α × Nat) :=
  scanAllFuel tryAt cs.length 0 cs

/-- First position (scanning left to right, all positions tried) where
`tryAt` matches — the semantics of an un-anchored JS `string.match`. -/
def searchFirst {α : Type} (tryAt : List Char → Option α) : List Char → Option α
  | [] => tryAt []
  | c :: rest =>
    match tryAt (c :: rest) with
    | some a => some a
    | none => searchFirst tryAt rest

/-! ## Inline service-call matcher

Source regex (`matchInlineServiceCall`, `extension.js:106`):
`/strapi\.service\(['"](api::[^'"]+)['"]\)\.(\w+)/g`. -/

/-- Match the inline service-call regex at the head of `cs`, returning
`((serviceName, methodName), matchLength)`. -/
def tryInlineAt (cs : List Char) : Option ((String × String) × Nat) :=
  match dropLit (String.data "strapi.service(") cs with
  | none => none
  | some cs1 =>
    match cs1 with
    | [] => none
    | q1 :: cs2 =>
      if quoteChar q1 then
        match dropLit (String.data "api::") cs2 with
        | none => none
        | some cs3 =>
          let body := cs3.takeWhile (fun ch => !(quoteChar ch))
          let cs4 := cs3.dropWhile (fun ch => !(quoteChar ch))
          if body.isEmpty then none
          else
            match cs4 with
            | q2 :: ')' :: '.' :: cs6 =>
              if quoteChar q2 then
                let word := cs6.takeWhile isWordChar
                let cs7 := cs6.dropWhile isWordChar
                if word.isEmpty then none
                else
                  some ((String.mk (List.append (String.data "api::") body),
                         String.mk word),
                        cs.length - cs7.length)
              else none
            | _ => none
      else none

/-- `matchInlineServiceCall(lineText, character)` (`extension.js:105-122`):
scan all regex matches in the line; for each, recompute the position of
`.methodName` inside the matched text via `indexOf` and report the first
match whose `[methodStartPos, methodEndPos]` range contains the cursor. -/
def matchInlineServiceCall (lineText : String) (character : Nat) :
    Option (String × String) :=
  let cs := String.data lineText
  let ms := scanAll tryInlineAt cs
  ms.findSome? (fun t =>
    match t with
    | (idx, (serviceName, methodName), len) =>
      let sub := (cs.drop idx).take len
      let inner := jsIndexOf sub ('.' :: String.data methodName)
      let methodStartPos : Int := (idx : Int) + inner + 1
      let methodEndPos : Int := methodStartPos + (String.length methodName : Int)
      if methodStartPos ≤ (character : Int) ∧ (character : Int) ≤ methodEndPos then
        some (serviceName, methodName)
      else none)

/-! ## Extension candidates and service path resolution -/

/-- `SUPPORTED_SCRIPT_EXTENSIONS` (`extension.js:5`). -/
def SUPPORTED_SCRIPT_EXTENSIONS : List String :=
  [".js", ".ts", ".jsx", ".tsx"]

/-- The loop body of `findExistingFileWithExtensions`. -/
def findExistingAux (fsEx : String → Bool) (base : String) : List String → Option String
  | [] => none
  | e :: es =>
    if fsEx (base ++ e) then some (base ++ e) else findExistingAux fsEx base es

/-- `findExistingFileWithExtensions` (`extension.js:408-417`): first
extension candidate that exists, else `none`. -/
def findExistingFileWithExtensions (fsEx : String → Bool) (base : String) :
    Option String :=
  findExistingAux fsEx base SUPPORTED_SCRIPT_EXTENSIONS

/-- `resolveFileWithExtensions` (`extension.js:394-401`): first existing
candidate, falling back to `base + ".js"`. -/
def resolveFileWithExtensions (fsEx : String → Bool) (base : String) : String :=
  match findExistingFileWithExtensions fsEx base with
  | some p => p
  | none => base ++ ".js"

/-- `resolveServiceFilePath` (`extension.js:280-311`).  The workspace root
and configured `srcPath` are passed in place of the document/configuration
lookups. -/
def resolveServiceFilePath (workspaceRoot : Option String) (srcPath : String)
    (fsEx : String → Bool) (serviceName : String) : Option String :=
  let parts := splitOnStr serviceName "::"
  let namespacePrefix := parts.getD 0 ""
  let rest := parts.getD 1 ""
  if !(namespacePrefix == "api") || rest == "" then none
  else
    match workspaceRoot with
    | none => none
    | some root =>
      let ps := splitOnStr rest "."
      let contentType := ps.getD 0 ""
      let serviceFileName := jsOrS (String.intercalate "." (ps.drop 1)) contentType
      some (resolveFileWithExtensions fsEx
        (joinPath [root, srcPath, "api", contentType, "services", serviceFileName]))

/-- The dotted-path fields of a service string as `resolveServiceFilePath`
parses them: `collectionName` (the content type) and `moduleName` (the
service file name). -/
def parseServiceName (serviceName : String) : Option (String × String) :=
  let parts := splitOnStr serviceName "::"
  let namespacePrefix := parts.getD 0 ""
  let rest := parts.getD 1 ""
  if !(namespacePrefix == "api") || rest == "" then none
  else
    let ps := splitOnStr rest "."
    some (ps.getD 0 "", jsOrS (String.intercalate "." (ps.drop 1)) (ps.getD 0 ""))

/-- The full reference extracted by the inline matcher, with the service
string parsed into collection and module names:
`(collectionName, moduleName, memberName)`. -/
def inlineReference (lineText : String) (character : Nat) :
    Option (String × String × String) :=
  (matchInlineServiceCall lineText character).bind (fun r =>
    (parseServiceName r.1).map (fun p => (p.1, p.2, r.2)))

/-! ## Variable back-resolution (chained service calls)

`matchChainedServiceCall` (`extension.js:129-163`) and
`findServiceNameForVariable` (`extension.js:481-499`). -/

/-- Document line access: `document.lineAt(n).text` (out-of-range lines
are never requested by the source; they default to `""`). -/
def lineAtD (doc : List String) (n : Nat) : String :=
  doc.getD n ""

/-- `document.getWordRangeAtPosition(position, /[\w$]+/)`: the host
editor's word lookup.  It returns the span `[start, stop)` of the maximal
`[\w$]+` run containing the position; a position sitting immediately
after such a run (and not on a word character itself) is also inside the
range, because editor ranges contain their end position. -/
def wordRangeAt (lineText : String) (character : Nat) : Option (Nat × Nat) :=
  let cs := String.data lineText
  if character < cs.length ∧ isWordDollar (cs.getD character ' ') then
    some (character - ((cs.take character).reverse.takeWhile isWordDollar).length,
          character + ((cs.drop character).takeWhile isWordDollar).length)
  else if 0 < character ∧ character ≤ cs.length ∧ isWordDollar (cs.getD (character - 1) ' ') then
    some (character - ((cs.take character).reverse.takeWhile isWordDollar).length, character)
  else none

/-- The trailing-identifier regex `/([A-Za-z_$][\w$]*)\s*$/` applied to a
string with no trailing whitespace: the maximal trailing `[\w$]` run,
shortened from the left past any leading digits (the only `[\w$]`
characters outside `[A-Za-z_$]`), which is exactly the leftmost match. -/
def trailingIdent (cs : List Char) : Option String :=
  let run := (cs.reverse.takeWhile isWordDollar).reverse
  let ident := run.dropWhile isDigitChar
  if ident.isEmpty then none else some (String.mk ident)

/-- Match the assignment regex
`${variableName}\s*=\s*strapi\.service\(['"](api::[^'"]+)['"]\)` at the
head of `cs`, returning the captured service string.  The variable name is
spliced into the source regex unescaped; for the identifier names produced
by `trailingIdent` (no regex metacharacters besides `$`, which the
theorems below avoid) it matches literally. -/
def tryAssignAt (name : List Char) (cs : List Char) : Option String :=
  match dropLit name cs with
  | none => none
  | some cs1 =>
    match cs1.dropWhile isSpaceChar with
    | '=' :: cs3 =>
      match dropLit (String.data "strapi.service(") (cs3.dropWhile isSpaceChar) with
      | none => none
      | some cs5 =>
        match cs5 with
        | q1 :: cs6 =>
          if quoteChar q1 then
            match dropLit (String.data "api::") cs6 with
            | none => none
            | some cs7 =>
              let body := cs7.takeWhile (fun ch => !(quoteChar ch))
              let cs8 := cs7.dropWhile (fun ch => !(quoteChar ch))
              if body.isEmpty then none
              else
                match cs8 with
                | q2 :: ')' :: _ =>
                  if quoteChar q2 then
                    some (String.mk (List.append (String.data "api::") body))
                  else none
                | _ => none
          else none
        | [] => none
    | _ => none

def dropAnyLit : List (List Char) → List Char → Option (List Char)
  | [], _ => none
  | p :: ps, cs =>
    match dropLit p cs with
    | some r => some r
    | none => dropAnyLit ps cs

/-- Match the declaration regex
`(?:const|let|var)\s+${variableName}\s*=\s*strapi\.service\(...\)` at the
head of `cs`. -/
def tryDeclAssignAt (name : List Char) (cs : List Char) : Option String :=
  match dropAnyLit [String.data "const", String.data "let", String.data "var"] cs with
  | none => none
  | some cs1 =>
    if (cs1.takeWhile isSpaceChar).isEmpty then none
    else tryAssignAt name (cs1.dropWhile isSpaceChar)

/-- One line tested against the two assignment patterns, declaration shape
first — the inner loop of `findServiceNameForVariable`. -/
def matchAssignmentLine (variableName : String) (lineText : String) : Option String :=
  match searchFirst (tryDeclAssignAt (String.data variableName)) (String.data lineText) with
  | some s => some s
  | none => searchFirst (tryAssignAt (String.data variableName)) (String.data lineText)

/-- `findServiceNameForVariable(document, startLine, variableName)`
(`extension.js:481-499`): walk from `startLine` down to line 0, returning
the first line's captured service string. -/
def findServiceNameForVariable (doc : List String) : Nat → String → Option String
  | 0, variableName => matchAssignmentLine variableName (lineAtD doc 0)
  | Nat.succ m, variableName =>
    match matchAssignmentLine variableName (lineAtD doc (Nat.succ m)) with
    | some s => some s
    | none => findServiceNameForVariable doc m variableName

/-- `matchChainedServiceCall` (`extension.js:129-163`). -/
def matchChainedServiceCall (doc : List String) (line character : Nat) :
    Option (String × String) :=
  let lineText := lineAtD doc line
  match wordRangeAt lineText character with
  | none => none
  | some se =>
    let cs := String.data lineText
    let methodName := String.mk ((cs.drop se.1).take (se.2 - se.1))
    let textBeforeMethod := cs.take se.1
    match lastIdxOfChar textBeforeMethod '.' with
    | none => none
    | some dotIndex =>
      let vp0 := trimEndList (textBeforeMethod.take dotIndex)
      let vp := if vp0.getLast? = some '?' then trimEndList vp0.dropLast else vp0
      match trailingIdent vp with
      | none => none
      | some variableName =>
        match findServiceNameForVariable doc line variableName with
        | none => none
        | some serviceName => some (serviceName, methodName)

/-- `findServiceCallAtPosition` (`extension.js:86-98`): inline form first,
then the chained (variable) form. -/
def findServiceCallAtPosition (doc : List String) (line character : Nat) :
    Option (String × String) :=
  match matchInlineServiceCall (lineAtD doc line) character with
  | some r => some r
  | none => matchChainedServiceCall doc line character

/-- The reference produced by the service-call matcher with its service
string parsed: `(collectionName, moduleName, memberName)`. -/
def serviceCallReference (doc : List String) (line character : Nat) :
    Option (String × String × String) :=
  (findServiceCallAtPosition doc line character).bind (fun r =>
    (parseServiceName r.1).map (fun p => (p.1, p.2, r.2)))

/-! ## Controller handler parsing (`parseHandlerString`, `extension.js:196-242`) -/

structure HandlerRef where
  nspace : String
  apiName : String
  controllerName : String
  actionName : String
deriving Repr, DecidableEq

/-- `handlerValue.indexOf('::')`. -/
def handlerSepIdx (handlerValue : String) : Option Nat :=
  firstIdx (String.data handlerValue) (String.data "::")

/-- The namespace of a handler string: the text before the first `::`,
defaulting to `api` when there is no separator. -/
def handlerNamespace (handlerValue : String) : String :=
  match handlerSepIdx handlerValue with
  | some i => String.mk ((String.data handlerValue).take i)
  | none => "api"

/-- The remainder of a handler string after the first `::` (the whole
string when there is no separator). -/
def handlerRest (handlerValue : String) : String :=
  match handlerSepIdx handlerValue with
  | some i => String.mk ((String.data handlerValue).drop (i + 2))
  | none => handlerValue

/-- `rest.split('.').filter(Boolean)`: the non-empty dot-segments. -/
def handlerSegments (handlerValue : String) : List String :=
  (splitOnStr (handlerRest handlerValue) ".").filter (fun s => !(s == ""))

/-- `parseHandlerString(handlerValue, document)` (`extension.js:196-242`);
the api name inferred from the document path is passed in explicitly. -/
def parseHandlerString (handlerValue : String) (inferredApiName : Option String) :
    Option HandlerRef :=
  if handlerValue = "" then none
  else
    let nspace := handlerNamespace handlerValue
    let segments := handlerSegments handlerValue
    match segments with
    | [] => none
    | _ :: _ =>
      let actionName := segments.getLastD ""
      match (segments.dropLast).getLast? with
      | none => none
      | some controllerName =>
        if nspace = "api" ∨ nspace = "plugin" then
          let remaining := (segments.dropLast).dropLast
          let a1 : String :=
            if (handlerSepIdx handlerValue).isSome then
              match remaining.head? with
              | some x => jsOrS x controllerName
              | none => controllerName
            else ""
          let apiName := if a1 = "" then jsOr inferredApiName controllerName else a1
          some ⟨nspace, apiName, controllerName, actionName⟩
        else none

/-! ## Api-name inference (`inferApiNameFromDocument`, `extension.js:249-272`) -/

def pathComponents (p : String) : List String :=
  (splitOnStr p "/").filter (fun s => !(s == ""))

def commonPrefixLen : List String → List String → Nat
  | a :: as, b :: bs => if a = b then 1 + commonPrefixLen as bs else 0
  | _, _ => 0

/-- Node `path.relative` for already-absolute paths: drop the common
leading components, then `..` up the remainder of `fromPath` and down the
remainder of `toPath`. -/
def relativePath (fromPath toPath : String) : String :=
  let ca := pathComponents fromPath
  let cb := pathComponents toPath
  let k := commonPrefixLen ca cb
  String.intercalate "/" (List.append (List.replicate (ca.length - k) "..") (cb.drop k))

/-- `inferApiNameFromDocument` (`extension.js:249-272`): relative to
`{root}/{srcPath}`, the document path must have at least three components
with the first equal to `api`; the second is the inferred api name. -/
def inferApiNameFromDocument (workspaceRoot : Option String)
    (srcPath documentPath : String) : Option String :=
  match workspaceRoot with
  | none => none
  | some root =>
    let srcAbsolutePath := joinPath [root, srcPath]
    if !(strStartsWith documentPath srcAbsolutePath) then none
    else
      let segments := splitOnStr (relativePath srcAbsolutePath documentPath) "/"
      if segments.length < 3 ∨ !(segments.getD 0 "" == "api") then none
      else jsOrN (segments.getD 1 "")

/-! ## Handler detection on a line
(`findControllerHandlerAtPosition`, `extension.js:171-190`)

Source regex: `/(?:['"])?handler(?:['"])?\s*:\s*['"]([^'"]+)['"]/g`. -/

/-- Match the handler regex at the head of `cs`, returning the captured
handler value and the match length. -/
def tryHandlerAt (cs : List Char) : Option (String × Nat) :=
  match cs with
  | [] => none
  | c :: rest =>
    let cs1 := if quoteChar c then rest else cs
    match dropLit (String.data "handler") cs1 with
    | none => none
    | some cs2 =>
      let cs3 := match cs2 with
        | d :: r2 => if quoteChar d then r2 else cs2
        | [] => cs2
      match cs3.dropWhile isSpaceChar with
      | ':' :: cs5 =>
        match cs5.dropWhile isSpaceChar with
        | q1 :: cs7 =>
          if quoteChar q1 then
            let body := cs7.takeWhile (fun ch => !(quoteChar ch))
            let cs8 := cs7.dropWhile (fun ch => !(quoteChar ch))
            if body.isEmpty then none
            else
              match cs8 with
              | q2 :: cs9 =>
                if quoteChar q2 then some (String.mk body, cs.length - cs9.length)
                else none
              | [] => none
          else none
        | [] => none
      | _ => none

/-- The `while` loop of `findControllerHandlerAtPosition`: for each regex
match, locate the literal value with `indexOf(value, match.index)` and, if
the cursor falls inside its span, return `parseHandlerString`'s result
(even when that is `none`); otherwise continue with the next match. -/
def handlerMatchLoop (cs : List Char) (character : Nat) (inferredApiName : Option String) :
    List (Nat × String × Nat) → Option HandlerRef
  | [] => none
  | (idx, handlerValue, _) :: ms =>
    match jsIndexOfFrom cs (String.data handlerValue) idx with
    | none => handlerMatchLoop cs character inferredApiName ms
    | some handlerStart =>
      if handlerStart ≤ character ∧ character ≤ handlerStart + handlerValue.length then
        parseHandlerString handlerValue inferredApiName
      else handlerMatchLoop cs character inferredApiName ms

/-- `findControllerHandlerAtPosition` (`extension.js:171-190`). -/
def findControllerHandlerAtPosition (lineText : String) (character : Nat)
    (inferredApiName : Option String) : Option HandlerRef :=
  let cs := String.data lineText
  handlerMatchLoop cs character inferredApiName (scanAll tryHandlerAt cs)

/-! ## Controller path resolution (`resolveControllerFilePath`, `extension.js:321-387`) -/

def resolveControllerFilePath (workspaceRoot : Option String) (srcPath : String)
    (fsEx : String → Bool) (nspace apiName controllerName : String) : Option String :=
  match workspaceRoot with
  | none => none
  | some root =>
    let controllerBase? : Option String :=
      if nspace = "api" then
        some (joinPath [root, srcPath, "api", apiName, "controllers", controllerName])
      else if nspace = "plugin" then
        some (joinPath [root, srcPath, "plugins", apiName, "controllers", controllerName])
      else none
    match controllerBase? with
    | none => none
    | some controllerBasePath =>
      match findExistingFileWithExtensions fsEx controllerBasePath with
      | some p => some p
      | none =>
        let servicesBase? : Option String :=
          if nspace = "api" then
            some (joinPath [root, srcPath, "api", apiName, "services", controllerName])
          else if nspace = "plugin" then
            some (joinPath [root, srcPath, "plugins", apiName, "services", controllerName])
          else none
        match servicesBase? with
        | none => some (controllerBasePath ++ ".js")
        | some servicesBasePath =>
          match findExistingFileWithExtensions fsEx servicesBasePath with
          | some p => some p
          | none => some (controllerBasePath ++ ".js")

/-! ## Definition locator (`findMethodDefinition`, `extension.js:425-472`)

The five definition-shape regexes, all anchored `^\s*...`; the method name
is regex-escaped in the source (`extension.js:433`), so the embedded
pattern matches the literal name and is translated as such. -/

/-- `(async\s+)?` followed by `k`: the one real backtracking point — try
the `async` branch, then the empty branch. -/
def optAsyncThen (k : List Char → Bool) (cs : List Char) : Bool :=
  (match dropLit (String.data "async") cs with
   | some cs1 =>
     if (cs1.takeWhile isSpaceChar).isEmpty then false
     else k (cs1.dropWhile isSpaceChar)
   | none => false) || k cs

/-- `\s*\(`. -/
def openParenAfterSpaces (cs : List Char) : Bool :=
  match cs.dropWhile isSpaceChar with
  | '(' :: _ => true
  | _ => false

/-- `function\s*\(`. -/
def functionOpenParen (cs : List Char) : Bool :=
  match dropLit (String.data "function") cs with
  | none => false
  | some cs1 => openParenAfterSpaces cs1

/-- `\([^)]*\)\s*=>`. -/
def arrowAfterArgs (cs : List Char) : Bool :=
  match cs with
  | '(' :: r =>
    match r.dropWhile (fun ch => !(ch = ')')) with
    | ')' :: r2 =>
      match r2.dropWhile isSpaceChar with
      | '=' :: '>' :: _ => true
      | _ => false
    | _ => false
  | _ => false

/-- `\s*:\s*` then `k`. -/
def colonThen (k : List Char → Bool) (cs : List Char) : Bool :=
  match cs.dropWhile isSpaceChar with
  | ':' :: cs1 => k (cs1.dropWhile isSpaceChar)
  | _ => false

/-- `['"]NAME['"]`. -/
def quotedName (name : List Char) (cs : List Char) : Option (List Char) :=
  match cs with
  | q1 :: cs1 =>
    if quoteChar q1 then
      match dropLit name cs1 with
      | some (q2 :: cs2) => if quoteChar q2 then some cs2 else none
      | _ => none
    else none
  | [] => none

/-- Pattern 1: `^\s*(async\s+)?NAME\s*\(`. -/
def defPat1 (name : List Char) (cs : List Char) : Bool :=
  optAsyncThen (fun cs1 =>
    match dropLit name cs1 with
    | some cs2 => openParenAfterSpaces cs2
    | none => false) (cs.dropWhile isSpaceChar)

/-- Pattern 2: `^\s*NAME\s*:\s*(async\s+)?function\s*\(`. -/
def defPat2 (name : List Char) (cs : List Char) : Bool :=
  match dropLit name (cs.dropWhile isSpaceChar) with
  | some cs1 => colonThen (optAsyncThen functionOpenParen) cs1
  | none => false

/-- Pattern 3: `^\s*['"]NAME['"]\s*:\s*(async\s+)?function\s*\(`. -/
def defPat3 (name : List Char) (cs : List Char) : Bool :=
  match quotedName name (cs.dropWhile isSpaceChar) with
  | some cs1 => colonThen (optAsyncThen functionOpenParen) cs1
  | none => false

/-- Pattern 4: `^\s*NAME\s*:\s*(async\s+)?\([^)]*\)\s*=>`. -/
def defPat4 (name : List Char) (cs : List Char) : Bool :=
  match dropLit name (cs.dropWhile isSpaceChar) with
  | some cs1 => colonThen (optAsyncThen arrowAfterArgs) cs1
  | none => false

/-- Pattern 5: `^\s*['"]NAME['"]\s*:\s*(async\s+)?\([^)]*\)\s*=>`. -/
def defPat5 (name : List Char) (cs : List Char) : Bool :=
  match quotedName name (cs.dropWhile isSpaceChar) with
  | some cs1 => colonThen (optAsyncThen arrowAfterArgs) cs1
  | none => false

/-- `methodPatterns` (`extension.js:434-445`), in source order. -/
def methodPatterns (name : List Char) : List (List Char → Bool) :=
  [defPat1 name, defPat2 name, defPat3 name, defPat4 name, defPat5 name]

/-- One line against the ordered patterns: first matching pattern wins,
and the column is `line.indexOf(methodName, match.index ?? 0)` — the
patterns are `^`-anchored, so `match.index` is `0`.  A pattern whose match
yields no `indexOf` hit falls through to the next pattern, as in the
source's inner loop. -/
def methodLineHit (methodName : String) (lineText : String) : Option Nat :=
  (methodPatterns (String.data methodName)).findSome? (fun p =>
    if p (String.data lineText) then
      match firstIdx (String.data lineText) (String.data methodName) with
      | some col => some col
      | none => none
    else none)

/-- The line loop of `findMethodDefinition` (`extension.js:447-461`),
carrying the 0-based index of the first line in `ls`. -/
def findMethodAux (methodName : String) : List String → Nat → Option (Nat × Nat)
  | [], _ => none
  | l :: ls, i =>
    match methodLineHit methodName l with
    | some col => some (i, col)
    | none => findMethodAux methodName ls (i + 1)

/-- The pure core of `findMethodDefinition` (`extension.js:425-472`):
split the file on `\n` and scan line-major, returning
`(lineIndex, columnIndex)`. -/
def findMethodDefinition (fileContent methodName : String) : Option (Nat × Nat) :=
  findMethodAux methodName (splitOnStr fileContent "\n") 0

/-! ## Orchestrator (`provideDefinition`, `extension.js:35-77`)

Outcomes are `(Option location, user-visible messages)`; a location is
`(filePath, lineIndex, columnIndex)`. -/

/-- `findMethodDefinition`'s I/O wrapper: read the file (the `try`/`catch`
surfaces a read failure as an error message carrying the underlying
exception message) and locate the member, warning when it is absent. -/
def locateInFile (readFile : String → Except String String)
    (filePath methodName : String) : Option (String × Nat × Nat) × List String :=
  match readFile filePath with
  | Except.error e => (none, ["Error reading service file: " ++ e])
  | Except.ok content =>
    match findMethodDefinition content methodName with
    | some ic => (some (filePath, ic.1, ic.2), [])
    | none =>
      (none, ["Method \"" ++ methodName ++ "\" not found in service file: "
               ++ baseName filePath])

/-- `provideDefinition` (`extension.js:35-77`): service-call path first,
then the controller-handler path; each missing-file case warns and yields
`none`; an unresolvable path yields `none` silently. -/
def provideDefinition (doc : List String) (line character : Nat)
    (workspaceRoot : Option String) (srcPath documentPath : String)
    (fsEx : String → Bool) (readFile : String → Except String String) :
    Option (String × Nat × Nat) × List String :=
  match findServiceCallAtPosition doc line character with
  | some r =>
    match resolveServiceFilePath workspaceRoot srcPath fsEx r.1 with
    | none => (none, [])
    | some serviceFilePath =>
      if fsEx serviceFilePath then locateInFile readFile serviceFilePath r.2
      else (none, ["Service file not found: " ++ serviceFilePath])
  | none =>
    match findControllerHandlerAtPosition (lineAtD doc line) character
        (inferApiNameFromDocument workspaceRoot srcPath documentPath) with
    | some h =>
      match resolveControllerFilePath workspaceRoot srcPath fsEx
          h.nspace h.apiName h.controllerName with
      | none => (none, [])
      | some controllerFilePath =>
        if fsEx controllerFilePath then locateInFile readFile controllerFilePath h.actionName
        else (none, ["Controller file not found: " ++ controllerFilePath])
    | none => (none, [])


/-! ## General lemmas about the embedded combinators -/

theorem findSome?_single {α β : Type} (f : α → Option β) (a : α) :
    List.findSome? f [a] = f a := by
  cases h : f a <;> simp [List.findSome?, h]

theorem scanAllFuel_nil {α : Type} (tryAt : List Char → Option (α × Nat)) :
    ∀ (fuel i : Nat) (cs : List Char), (∀ n, tryAt (cs.drop n) = none) →
      scanAllFuel tryAt fuel i cs = []
  | 0, _, _, _ => rfl
  | _ + 1, _, [], _ => rfl
  | fuel + 1, i, c :: rest, h => by
    have h0 : tryAt (c :: rest) = none := h 0
    have ih := scanAllFuel_nil tryAt fuel (i + 1) rest (fun n => h (n + 1))
    simp [scanAllFuel, h0, ih]

theorem containsSub_false_drop : ∀ (cs pat : List Char), containsSub cs pat = false →
    ∀ n, dropLit pat (cs.drop n) = none
  | [], pat, h, n => by
    simp only [containsSub] at h
    rw [List.drop_nil]
    cases hd : dropLit pat [] with
    | none => rfl
    | some v => rw [hd] at h; simp at h
  | c :: rest, pat, h, n => by
    simp only [containsSub, Bool.or_eq_false_iff] at h
    match n with
    | 0 =>
      cases hd : dropLit pat (c :: rest) with
      | none => exact hd
      | some v => rw [hd] at h; simp at h
    | Nat.succ m =>
      exact containsSub_false_drop rest pat h.2 m


/-! ## Claim C1: inline member span -/

theorem inlineScan_ab :
    scanAll tryInlineAt (String.data "strapi.service('api::a.b').m") =
      [(0, ("api::a.b", "m"), 28)] := by rfl

/-- C1 (amended): for the line `strapi.service('api::a.b').m`, the inline
matcher reports the reference `{collectionName: "a", moduleName: "b",
memberName: "m"}` exactly when the cursor offset lies between the first
character of `m` (offset 27) and the position immediately after it
(offset 28), inclusive; the dot of `.m` (offset 26) and every other
offset yield no match. -/
theorem c1_inline_member_span :
    ∀ character : Nat,
      inlineReference "strapi.service('api::a.b').m" character =
        if 27 ≤ character ∧ character ≤ 28 then some ("a", "b", "m") else none := by
  intro c
  have hm : matchInlineServiceCall "strapi.service('api::a.b').m" c =
      if (27 : Int) ≤ (c : Int) ∧ (c : Int) ≤ (28 : Int)
      then some ("api::a.b", "m") else none := by
    simp only [matchInlineServiceCall]
    rw [inlineScan_ab, findSome?_single]
    rfl
  simp only [inlineReference]
  rw [hm]
  by_cases h : 27 ≤ c ∧ c ≤ 28
  · have hi : (27 : Int) ≤ (c : Int) ∧ (c : Int) ≤ (28 : Int) :=
      ⟨by exact_mod_cast h.1, by exact_mod_cast h.2⟩
    rw [if_pos hi, if_pos h]
    rfl
  · have hi : ¬ ((27 : Int) ≤ (c : Int) ∧ (c : Int) ≤ (28 : Int)) := by
      intro hc
      exact h ⟨by exact_mod_cast hc.1, by exact_mod_cast hc.2⟩
    rw [if_neg hi, if_neg h]
    rfl

/-- C1 counterexample: offset 26 is the dot of `.m`, hence inside the
claimed span "`.m` (the dot plus the member identifier), inclusive of both
boundary characters" — yet the matcher reports no reference there: the
code's span check starts one character after the dot. -/
theorem c1_counterexample :
    inlineReference "strapi.service('api::a.b').m" 26 = none := by rfl

theorem c1_inline_member_span_witness :
    inlineReference "strapi.service('api::a.b').m" 27 = some ("a", "b", "m") := by
  have h := c1_inline_member_span 27
  simpa using h


/-! ## Claim C9: the receiver of an inline call -/

theorem tryInlineAt_none_of_no_lit {cs : List Char}
    (h : dropLit (String.data "strapi.service(") cs = none) : tryInlineAt cs = none := by
  unfold tryInlineAt
  rw [h]

/-- C9 (amended): the inline matcher requires the literal text
`strapi.service(` — a line not containing that substring never matches,
whatever the receiver identifier and cursor offset; receivers other than
`strapi` match only when they end in `strapi` (e.g. `mystrapi`), because
the regex `strapi\.service\(...` is unanchored. -/
theorem c9_receiver_literal :
    (∀ (lineText : String) (character : Nat),
        containsSub (String.data lineText) (String.data "strapi.service(") = false →
        matchInlineServiceCall lineText character = none)
    ∧ matchInlineServiceCall "mystrapi.service('api::a.b').m" 29 = some ("api::a.b", "m")
    ∧ matchInlineServiceCall "strapi.service('api::a.b').m" 27 = some ("api::a.b", "m") := by
  refine ⟨?_, by rfl, by rfl⟩
  intro lineText c h
  have hscan : scanAll tryInlineAt (String.data lineText) = [] := by
    apply scanAllFuel_nil
    intro n
    exact tryInlineAt_none_of_no_lit (containsSub_false_drop _ _ h n)
  simp only [matchInlineServiceCall]
  rw [hscan]
  rfl

/-- C9 counterexample: `foo.service('api::a.b').m` with the cursor on `m`
(offset 24, inside the `.m` span under either boundary convention) yields
no match, although the claim promises a match for every receiver
identifier. -/
theorem c9_counterexample :
    matchInlineServiceCall "foo.service('api::a.b').m" 24 = none := by rfl

theorem c9_receiver_literal_witness :
    matchInlineServiceCall "self.service('api::a.b').m" 25 = none :=
  c9_receiver_literal.1 "self.service('api::a.b').m" 25 (by rfl)


/-! ## Claim C2: segment validation before path resolution -/

theorem mem_of_getLastD : ∀ (l : List String) (d : String), l ≠ [] → l.getLastD d ∈ l
  | [], _, h => absurd rfl h
  | a :: t, d, _ => by
    have : (a :: t).getLastD d = (a :: t).getLast (by simp) := by
      simp [List.getLastD_eq_getLast?, List.getLast?_eq_getLast]
    rw [this]
    exact List.getLast_mem _

theorem mem_of_getLast? : ∀ {l : List String} {a : String}, l.getLast? = some a → a ∈ l
  | [], a, h => by simp at h
  | [b], a, h => by simp_all
  | b :: c :: t, a, h => by
    rw [List.getLast?_cons_cons] at h
    exact List.mem_cons_of_mem b (mem_of_getLast? h)

theorem mem_of_mem_dropLast {l : List String} {a : String} (h : a ∈ l.dropLast) : a ∈ l := by
  rw [List.dropLast_eq_take] at h
  exact List.take_subset _ _ h

theorem ne_empty_of_mem_handlerSegments {hv a : String} (h : a ∈ handlerSegments hv) :
    ¬ a = "" := by
  simp only [handlerSegments, List.mem_filter] at h
  simpa using h.2

theorem jsOr_ne_empty {o : Option String} {d : String} (hd : ¬ d = "") :
    ¬ jsOr o d = "" := by
  cases o with
  | none => exact hd
  | some s =>
    by_cases hs : s = "" <;> simp [jsOr, hs, hd]

theorem ite_apiName_ne_empty {a1 : String} {inf : Option String} {cn : String}
    (hcn : ¬ cn = "") : ¬ (if a1 = "" then jsOr inf cn else a1) = "" := by
  by_cases h : a1 = ""
  · rw [if_pos h]
    exact jsOr_ne_empty hcn
  · rw [if_neg h]
    exact h

/-- C2 (amended): handler-parser references always have non-empty
namespace, api, controller and action names, and service-string resolution
fails (producing no path) exactly when the namespace prefix is not `api`
or nothing follows the `::` separator — but a service string whose first
dotted segment is empty (such as `api::.b`) is *not* rejected: it still
produces a candidate path, the empty collection segment being dropped by
the path join. -/
theorem c2_segment_validation :
    (∀ (root srcPath : String) (fsEx : String → Bool) (serviceName : String),
        resolveServiceFilePath (some root) srcPath fsEx serviceName = none ↔
          ¬ ((splitOnStr serviceName "::").getD 0 "" = "api"
              ∧ ¬ (splitOnStr serviceName "::").getD 1 "" = ""))
    ∧ (∀ (handlerValue : String) (inferredApiName : Option String) (r : HandlerRef),
        parseHandlerString handlerValue inferredApiName = some r →
          ¬ r.nspace = "" ∧ ¬ r.apiName = "" ∧ ¬ r.controllerName = ""
            ∧ ¬ r.actionName = "")
    ∧ resolveServiceFilePath (some "/w") "src" (fun _ => false) "api::.b"
        = some "/w/src/api/services/b.js" := by
  refine ⟨?_, ?_, by rfl⟩
  · intro root srcPath fsEx s
    by_cases h1 : (splitOnStr s "::").getD 0 "" = "api" <;>
      by_cases h2 : (splitOnStr s "::").getD 1 "" = "" <;>
        simp [resolveServiceFilePath, h1, h2]
  · intro hv inf r h
    by_cases h0 : hv = ""
    · rw [h0] at h
      simp [parseHandlerString] at h
    · simp only [parseHandlerString, if_neg h0] at h
      split at h
      · exact absurd h (by simp)
      · rename_i x rest heq
        split at h
        · exact absurd h (by simp)
        · rename_i controllerName heq2
          split at h
          · rename_i hns
            have hcne : ¬ controllerName = "" :=
              ne_empty_of_mem_handlerSegments
                (mem_of_mem_dropLast (mem_of_getLast? heq2))
            have hactne : ¬ (handlerSegments hv).getLastD "" = "" :=
              ne_empty_of_mem_handlerSegments
                (mem_of_getLastD _ _ (by rw [heq]; simp))
            cases h
            refine ⟨?_, ?_, ?_, ?_⟩
            · show ¬ handlerNamespace hv = ""
              rcases hns with hns | hns <;> rw [hns] <;> decide
            · exact ite_apiName_ne_empty hcne
            · exact hcne
            · exact hactne
          · exact absurd h (by simp)

/-- C2 counterexample: the inline matcher accepts the service string
`api::.b`, whose first dotted segment after `api::` is empty, and path
resolution still produces a candidate path for it — the claim demands that
no path be produced. -/
theorem c2_counterexample :
    matchInlineServiceCall "strapi.service('api::.b').m" 26 = some ("api::.b", "m")
    ∧ resolveServiceFilePath (some "/w") "src" (fun _ => false) "api::.b"
        = some "/w/src/api/services/b.js" := ⟨by rfl, by rfl⟩

theorem c2_segment_validation_witness :
    resolveServiceFilePath (some "/w") "src" (fun _ => false) "plugin::a.b" = none :=
  (c2_segment_validation.1 "/w" "src" (fun _ => false) "plugin::a.b").mpr (by decide)


/-! ## Claim C3: owning-package inference -/

/-- C3 (amended): only the shorthand form (no `::` separator) infers the
owning package from the current file's path (falling back to the
controller name); when the separator is present but the package segment is
omitted (exactly two dot-segments), the controller name itself is used
directly and the path inference is never consulted.  Inference itself
yields the second component of the path relative to the source directory,
and requires at least three components with the first equal to `api`. -/
theorem c3_package_inference :
    (∀ inferredApiName : Option String,
        parseHandlerString "api::a.b" inferredApiName = some ⟨"api", "a", "a", "b"⟩)
    ∧ (∀ inferredApiName : Option String,
        parseHandlerString "a.b" inferredApiName
          = some ⟨"api", jsOr inferredApiName "a", "a", "b"⟩)
    ∧ inferApiNameFromDocument (some "/w") "src" "/w/src/api/foo/routes/r.js" = some "foo"
    ∧ inferApiNameFromDocument (some "/w") "src" "/w/src/api/foo" = none
    ∧ inferApiNameFromDocument (some "/w") "src" "/w/other/f.js" = none :=
  ⟨fun _ => rfl, fun _ => rfl, by rfl, by rfl, by rfl⟩

/-- C3 counterexample: for the handler string `api::a.b` (separator
present, package segment omitted) in a document whose path would let the
package name `z` be inferred, the parser returns `apiName = "a"` (the
controller name) and not the inferred `"z"` — the inference the claim
promises is never consulted in this branch. -/
theorem c3_counterexample :
    parseHandlerString "api::a.b" (some "z") = some ⟨"api", "a", "a", "b"⟩
    ∧ ¬ parseHandlerString "api::a.b" (some "z") = some ⟨"api", "z", "a", "b"⟩
    ∧ inferApiNameFromDocument (some "/w") "src" "/w/src/api/z/routes/r.js" = some "z" :=
  ⟨by rfl, by decide, by rfl⟩

theorem c3_package_inference_witness :
    parseHandlerString "a.b" (some "other-pkg") = some ⟨"api", "other-pkg", "a", "b"⟩ :=
  c3_package_inference.2.1 (some "other-pkg")


/-! ## Claim C4: variable back-resolution -/

theorem findService_upward (doc : List String) (name : String) :
    ∀ (n : Nat), ∀ (j : Nat) (s : String), j ≤ n →
      matchAssignmentLine name (lineAtD doc j) = some s →
      (∀ k, j < k → k ≤ n → matchAssignmentLine name (lineAtD doc k) = none) →
      findServiceNameForVariable doc n name = some s := by
  intro n
  induction n with
  | zero =>
    intro j s hj hm _
    have hj0 : j = 0 := Nat.le_zero.mp hj
    rw [hj0] at hm
    simpa [findServiceNameForVariable] using hm
  | succ m ih =>
    intro j s hj hm hall
    by_cases hje : j = m + 1
    · rw [hje] at hm
      simp [findServiceNameForVariable, hm]
    · have hjm : j ≤ m := Nat.lt_succ_iff.mp (Nat.lt_of_le_of_ne hj hje)
      have hnone : matchAssignmentLine name (lineAtD doc (m + 1)) = none :=
        hall (m + 1) (Nat.lt_succ_of_le hjm) (Nat.le_refl _)
      have ihw := ih j s hjm hm (fun k h1 h2 => hall k h1 (Nat.le_succ_of_le h2))
      simp [findServiceNameForVariable, hnone, ihw]

/-- C4 (amended): the back-resolution scan starts at the cursor's own line
(inclusive) and walks upward to line 0, testing the declaration shape then
the bare-reassignment shape on each line; the closest matching line at or
above the cursor wins.  The claim's concrete scenario holds: with
`const svc = strapi.service('api::x.x')` on line 0 and `svc.method()` on
line 5, the cursor on `method` resolves to
`{collectionName: "x", moduleName: "x", memberName: "method"}`. -/
theorem c4_variable_back_resolution :
    (∀ (doc : List String) (n j : Nat) (name s : String),
        j ≤ n →
        matchAssignmentLine name (lineAtD doc j) = some s →
        (∀ k, j < k → k ≤ n → matchAssignmentLine name (lineAtD doc k) = none) →
        findServiceNameForVariable doc n name = some s)
    ∧ serviceCallReference
        ["const svc = strapi.service('api::x.x')", "", "", "", "", "svc.method()"] 5 4
        = some ("x", "x", "method")
    ∧ serviceCallReference
        ["const svc = strapi.service('api::x.x')", "", "", "", "",
          "svc = strapi.service('api::y.y'); svc.method()"] 5 38
        = some ("y", "y", "method") := by
  refine ⟨?_, by rfl, by rfl⟩
  intro doc n j name s hj hm hall
  exact findService_upward doc name n j s hj hm hall

/-- C4 counterexample: the scan is not restricted to lines strictly above
the cursor — with the assignment `svc = strapi.service('api::y.y')` on the
cursor's own line 5 and `const svc = strapi.service('api::x.x')` on line 0,
the cursor's line wins over the closest *preceding* matching line, so
resolution yields `y`/`y` and not the `x`/`x` the claim's scan order
demands. -/
theorem c4_counterexample :
    serviceCallReference
        ["const svc = strapi.service('api::x.x')", "", "", "", "",
          "svc = strapi.service('api::y.y'); svc.method()"] 5 38
        = some ("y", "y", "method")
    ∧ ¬ serviceCallReference
        ["const svc = strapi.service('api::x.x')", "", "", "", "",
          "svc = strapi.service('api::y.y'); svc.method()"] 5 38
        = some ("x", "x", "method") := ⟨by rfl, by decide⟩

theorem c4_variable_back_resolution_witness :
    findServiceNameForVariable
        ["const svc = strapi.service('api::x.x')", "", "", "", "", "svc.method()"] 5 "svc"
      = some "api::x.x" :=
  c4_variable_back_resolution.1 _ 5 0 "svc" "api::x.x" (by decide) (by rfl)
    (by intro k h1 h2; interval_cases k <;> rfl)


/-! ## Claim C5: definition locator -/

theorem findMethodAux_some_iff (name : String) :
    ∀ (ls : List String) (base i col : Nat),
      findMethodAux name ls base = some (i, col) ↔
        ∃ k, k < ls.length ∧ i = base + k
          ∧ methodLineHit name (ls.getD k "") = some col
          ∧ ∀ j, j < k → methodLineHit name (ls.getD j "") = none := by
  intro ls
  induction ls with
  | nil =>
    intro base i col
    simp [findMethodAux]
  | cons l ls ih =>
    intro base i col
    cases h : methodLineHit name l with
    | some c =>
      simp only [findMethodAux, h]
      constructor
      · intro he
        simp only [Option.some.injEq, Prod.mk.injEq] at he
        refine ⟨0, by simp, by omega, ?_, fun j hj => absurd hj (Nat.not_lt_zero j)⟩
        rw [List.getD_cons_zero, h, he.2]
      · rintro ⟨k, hk, hik, hhit, hprev⟩
        cases k with
        | zero =>
          rw [List.getD_cons_zero, h] at hhit
          simp only [Option.some.injEq] at hhit
          simp [hik, hhit]
        | succ k' =>
          have h0 := hprev 0 (Nat.succ_pos k')
          rw [List.getD_cons_zero, h] at h0
          exact absurd h0 (by simp)
    | none =>
      simp only [findMethodAux, h]
      rw [ih (base + 1) i col]
      constructor
      · rintro ⟨k, hk, hik, hhit, hprev⟩
        refine ⟨k + 1, Nat.succ_lt_succ hk, by omega, by simpa using hhit, ?_⟩
        intro j hj
        cases j with
        | zero => simpa using h
        | succ j' =>
          have := hprev j' (Nat.lt_of_succ_lt_succ hj)
          simpa using this
      · rintro ⟨k, hk, hik, hhit, hprev⟩
        cases k with
        | zero =>
          rw [List.getD_cons_zero, h] at hhit
          exact absurd hhit (by simp)
        | succ k' =>
          refine ⟨k', Nat.lt_of_succ_lt_succ (by simpa using hk), by omega,
            by simpa using hhit, ?_⟩
          intro j hj
          have := hprev (j + 1) (Nat.succ_lt_succ hj)
          simpa using this

theorem findSome?_const_some {α : Type} :
    ∀ (pats : List (α → Bool)) (x : α) (o : Option Nat) (col : Nat),
      (pats.findSome? (fun p => if p x then o else none)) = some col → o = some col := by
  intro pats
  induction pats with
  | nil =>
    intro x o col h
    simp [List.findSome?] at h
  | cons p ps ih =>
    intro x o col h
    by_cases hp : p x
    · rw [List.findSome?] at h
      simp only [hp, if_true] at h
      cases o with
      | some b => simpa using h
      | none => exact ih x none col (by simpa using h)
    · rw [List.findSome?] at h
      simp only [hp, if_false] at h
      exact ih x o col h

theorem methodLineHit_col {name lineText : String} {col : Nat}
    (h : methodLineHit name lineText = some col) :
    firstIdx (String.data lineText) (String.data name) = some col := by
  have ho := findSome?_const_some (methodPatterns (String.data name))
      (String.data lineText) _ col h
  cases hf : firstIdx (String.data lineText) (String.data name) with
  | some c =>
    rw [hf] at ho
    simpa using ho
  | none =>
    rw [hf] at ho
    simp at ho

/-- C5: the definition locator scans line-major — it returns
`some (i, col)` exactly when line `i` is the first (0-based, top to
bottom) line matched by any of the five ordered definition-shape patterns
— and the reported column is the plain first-occurrence index of the bare
member name in that line (the structural patterns are `^`-anchored, so the
search starts where the pattern began matching).  The claim's concrete
scenario holds: content `"  async getFeed(id) {\n  return id;\n}"` with
member `getFeed` locates `(lineIndex 0, columnIndex 8)`. -/
theorem c5_definition_locator :
    (∀ (fileContent methodName : String) (i col : Nat),
        findMethodDefinition fileContent methodName = some (i, col) ↔
          (i < (splitOnStr fileContent "\n").length
            ∧ methodLineHit methodName ((splitOnStr fileContent "\n").getD i "") = some col
            ∧ ∀ j, j < i →
                methodLineHit methodName ((splitOnStr fileContent "\n").getD j "") = none))
    ∧ (∀ (methodName lineText : String) (col : Nat),
        methodLineHit methodName lineText = some col →
        firstIdx (String.data lineText) (String.data methodName) = some col)
    ∧ findMethodDefinition "  async getFeed(id) \x7b\n  return id;\n\x7d" "getFeed"
        = some (0, 8) := by
  refine ⟨?_, ?_, by rfl⟩
  · intro content name i col
    unfold findMethodDefinition
    rw [findMethodAux_some_iff]
    constructor
    · rintro ⟨k, hk, hik, hhit, hprev⟩
      have hik0 : i = k := by omega
      subst hik0
      exact ⟨hk, hhit, hprev⟩
    · rintro ⟨hk, hhit, hprev⟩
      exact ⟨i, hk, by omega, hhit, hprev⟩
  · intro name line col h
    exact methodLineHit_col h

/-- Spec testable property 6 as a witness: `'getFeed': function(id) {}`
matches quoted-function pattern 3 on line 0 with the column given by plain
substring search (column 1, after the opening quote). -/
theorem c5_definition_locator_witness :
    firstIdx (String.data "'getFeed': function(id) \x7b\x7d") (String.data "getFeed") = some 1 :=
  c5_definition_locator.2.1 "getFeed" "'getFeed': function(id) \x7b\x7d" 1 (by rfl)


/-! ## Claim C7: extension-candidate search -/

theorem findExisting_eq_find? :
    ∀ (fsEx : String → Bool) (base : String),
      findExistingFileWithExtensions fsEx base
        = (SUPPORTED_SCRIPT_EXTENSIONS.map (fun e => base ++ e)).find? fsEx := by
  intro fsEx base
  simp only [findExistingFileWithExtensions, SUPPORTED_SCRIPT_EXTENSIONS, findExistingAux,
    List.map]
  cases h1 : fsEx (base ++ ".js") <;> cases h2 : fsEx (base ++ ".ts") <;>
    cases h3 : fsEx (base ++ ".jsx") <;> cases h4 : fsEx (base ++ ".tsx") <;>
      simp [List.find?, h1, h2, h3, h4]

/-- C7: the candidate search tries exactly the four extensions
`.js`, `.ts`, `.jsx`, `.tsx` in that fixed order, returning the first
candidate the filesystem reports as existing; with no existing candidate
the resolver deterministically returns the base path with the primary
extension `.js` appended; and the result depends only on the base path and
the (unchanged) filesystem, so repeated calls agree. -/
theorem c7_extension_candidates :
    SUPPORTED_SCRIPT_EXTENSIONS = [".js", ".ts", ".jsx", ".tsx"]
    ∧ (∀ (fsEx : String → Bool) (base : String),
        findExistingFileWithExtensions fsEx base
          = (SUPPORTED_SCRIPT_EXTENSIONS.map (fun e => base ++ e)).find? fsEx)
    ∧ (∀ (fsEx : String → Bool) (base : String),
        resolveFileWithExtensions fsEx base
          = ((SUPPORTED_SCRIPT_EXTENSIONS.map (fun e => base ++ e)).find? fsEx).getD
              (base ++ ".js"))
    ∧ (∀ (fsEx fsEx2 : String → Bool) (base : String), (∀ p, fsEx p = fsEx2 p) →
        resolveFileWithExtensions fsEx base = resolveFileWithExtensions fsEx2 base) := by
  refine ⟨rfl, findExisting_eq_find?, ?_, ?_⟩
  · intro fsEx base
    simp only [resolveFileWithExtensions]
    rw [findExisting_eq_find? fsEx base]
    cases hf : (SUPPORTED_SCRIPT_EXTENSIONS.map (fun e => base ++ e)).find? fsEx <;> simp
  · intro fsEx fsEx2 base h
    rw [funext h]

theorem c7_extension_candidates_witness :
    resolveFileWithExtensions (fun _ => false) "/w/s"
      = resolveFileWithExtensions (fun p => p != p) "/w/s" :=
  c7_extension_candidates.2.2.2 (fun _ => false) (fun p => p != p) "/w/s"
    (fun p => by simp)


/-! ## Claim C6: controller path resolution with fallbacks -/

/-- C6: controller-handler path resolution first tries the controllers
template `{root}/{src}/{api|plugins}/{collection}/controllers/{module}`
under the candidate extensions in order; failing that, the services
template with the same collection and module; and with nothing on disk it
still returns the controllers-template path with the primary `.js`
extension appended (never `none` once the namespace directory is chosen).
The three concrete cases exercise each branch. -/
theorem c6_controller_path :
    (∀ (root src a c : String) (fsEx : String → Bool),
        resolveControllerFilePath (some root) src fsEx "api" a c
          = some ((((SUPPORTED_SCRIPT_EXTENSIONS.map
                  (fun e => joinPath [root, src, "api", a, "controllers", c] ++ e)).find?
                  fsEx).orElse
                (fun _ => (SUPPORTED_SCRIPT_EXTENSIONS.map
                  (fun e => joinPath [root, src, "api", a, "services", c] ++ e)).find?
                  fsEx)).getD
              (joinPath [root, src, "api", a, "controllers", c] ++ ".js")))
    ∧ (∀ (root src a c : String) (fsEx : String → Bool),
        resolveControllerFilePath (some root) src fsEx "plugin" a c
          = some ((((SUPPORTED_SCRIPT_EXTENSIONS.map
                  (fun e => joinPath [root, src, "plugins", a, "controllers", c] ++ e)).find?
                  fsEx).orElse
                (fun _ => (SUPPORTED_SCRIPT_EXTENSIONS.map
                  (fun e => joinPath [root, src, "plugins", a, "services", c] ++ e)).find?
                  fsEx)).getD
              (joinPath [root, src, "plugins", a, "controllers", c] ++ ".js")))
    ∧ resolveControllerFilePath (some "/w") "src"
        (fun p => p == "/w/src/api/a/controllers/c.tsx") "api" "a" "c"
        = some "/w/src/api/a/controllers/c.tsx"
    ∧ resolveControllerFilePath (some "/w") "src"
        (fun p => p == "/w/src/api/a/services/c.ts") "api" "a" "c"
        = some "/w/src/api/a/services/c.ts"
    ∧ resolveControllerFilePath (some "/w") "src" (fun _ => false) "api" "a" "c"
        = some "/w/src/api/a/controllers/c.js" := by
  refine ⟨?_, ?_, by rfl, by rfl, by rfl⟩
  · intro root src a c fsEx
    simp only [resolveControllerFilePath]
    simp only [eq_false (by decide : ¬ ("api" : String) = "plugin"), if_true, if_false]
    rw [findExisting_eq_find?, findExisting_eq_find?]
    cases hfc : (SUPPORTED_SCRIPT_EXTENSIONS.map
        (fun e => joinPath [root, src, "api", a, "controllers", c] ++ e)).find? fsEx with
    | some p => rfl
    | none =>
      cases hfs : (SUPPORTED_SCRIPT_EXTENSIONS.map
          (fun e => joinPath [root, src, "api", a, "services", c] ++ e)).find? fsEx with
      | some q => rfl
      | none => rfl
  · intro root src a c fsEx
    simp only [resolveControllerFilePath]
    simp only [eq_false (by decide : ¬ ("plugin" : String) = "api"), if_true, if_false]
    rw [findExisting_eq_find?, findExisting_eq_find?]
    cases hfc : (SUPPORTED_SCRIPT_EXTENSIONS.map
        (fun e => joinPath [root, src, "plugins", a, "controllers", c] ++ e)).find? fsEx with
    | some p => rfl
    | none =>
      cases hfs : (SUPPORTED_SCRIPT_EXTENSIONS.map
          (fun e => joinPath [root, src, "plugins", a, "services", c] ++ e)).find? fsEx with
      | some q => rfl
      | none => rfl

theorem c6_controller_path_witness :
    resolveControllerFilePath (some "/w") "src" (fun _ => false) "plugin" "pa" "pc"
      = some "/w/src/plugins/pa/controllers/pc.js" :=
  (c6_controller_path.2.1 "/w" "src" "pa" "pc" (fun _ => false)).trans (by rfl)


/-! ## Claim C8: handler-string parsing -/

/-- C8: parsing the shorthand handler string `a.b` (no namespace
separator) yields module (controller) `a`, member (action) `b`, namespace
defaulted to `api`, and collection equal to the inferred package name with
fall-back `a`; and every handler string with fewer than two (non-empty)
dot-segments, or with a namespace other than `api`/`plugin`, yields no
match. -/
theorem c8_handler_parsing :
    (∀ inferredApiName : Option String,
        parseHandlerString "a.b" inferredApiName
          = some ⟨"api", jsOr inferredApiName "a", "a", "b"⟩)
    ∧ (∀ (handlerValue : String) (inferredApiName : Option String),
        (handlerSegments handlerValue).length < 2 →
        parseHandlerString handlerValue inferredApiName = none)
    ∧ (∀ (handlerValue : String) (inferredApiName : Option String),
        ¬ handlerNamespace handlerValue = "api" →
        ¬ handlerNamespace handlerValue = "plugin" →
        parseHandlerString handlerValue inferredApiName = none) := by
  refine ⟨fun _ => rfl, ?_, ?_⟩
  · intro hv inf hlen
    by_cases h0 : hv = ""
    · rw [h0]; rfl
    · simp only [parseHandlerString, if_neg h0]
      cases hs : handlerSegments hv with
      | nil => rfl
      | cons x rest =>
        cases rest with
        | nil => rfl
        | cons y t =>
          rw [hs] at hlen
          simp only [List.length_cons] at hlen
          omega
  · intro hv inf h1 h2
    by_cases h0 : hv = ""
    · rw [h0]; rfl
    · simp only [parseHandlerString, if_neg h0]
      cases hs : handlerSegments hv with
      | nil => rfl
      | cons x rest =>
        cases hg : ((x :: rest).dropLast).getLast? with
        | none => rfl
        | some cn => simp only [if_neg (fun hor => Or.elim hor h1 h2)]

theorem c8_handler_parsing_witness :
    parseHandlerString "a.b" none = some ⟨"api", "a", "a", "b"⟩
    ∧ parseHandlerString "api::x" none = none
    ∧ parseHandlerString "admin::a.b" none = none :=
  ⟨c8_handler_parsing.1 none,
   c8_handler_parsing.2.1 "api::x" none (by decide),
   c8_handler_parsing.2.2 "admin::a.b" none (by decide) (by decide)⟩


/-! ## Claim C10: error handling at the orchestrator boundary -/

theorem locateInFile_msgs (readFile : String → Except String String) (p name : String) :
    ((locateInFile readFile p name).2).length ≤ 1
      ∧ ((locateInFile readFile p name).2 ≠ [] → (locateInFile readFile p name).1 = none) := by
  unfold locateInFile
  cases readFile p with
  | error e => exact ⟨by simp, fun _ => rfl⟩
  | ok content =>
    dsimp only
    cases findMethodDefinition content name with
    | some ic => exact ⟨by simp, fun h => absurd rfl h⟩
    | none => exact ⟨by simp, fun _ => rfl⟩

/-- C10: every navigation request is handled totally by the embedded flow
— when the target file exists but reading it fails, the locator surfaces
exactly one error message carrying the underlying failure message and the
result is `none`; and for all inputs the orchestrator emits at most one
user-visible message, with a `none` result whenever any message is
emitted. -/
theorem c10_error_handling :
    (∀ (doc : List String) (line character : Nat) (workspaceRoot : Option String)
        (srcPath documentPath : String) (fsEx : String → Bool)
        (readFile : String → Except String String),
        ((provideDefinition doc line character workspaceRoot srcPath documentPath fsEx
            readFile).2).length ≤ 1
        ∧ ((provideDefinition doc line character workspaceRoot srcPath documentPath fsEx
              readFile).2 ≠ [] →
            (provideDefinition doc line character workspaceRoot srcPath documentPath fsEx
              readFile).1 = none))
    ∧ (∀ (readFile : String → Except String String) (p name e : String),
        readFile p = Except.error e →
        locateInFile readFile p name = (none, ["Error reading service file: " ++ e]))
    ∧ (∀ (doc : List String) (line character : Nat) (workspaceRoot : Option String)
        (srcPath documentPath : String) (fsEx : String → Bool)
        (readFile : String → Except String String) (r : String × String) (p e : String),
        findServiceCallAtPosition doc line character = some r →
        resolveServiceFilePath workspaceRoot srcPath fsEx r.1 = some p →
        fsEx p = true →
        readFile p = Except.error e →
        provideDefinition doc line character workspaceRoot srcPath documentPath fsEx readFile
          = (none, ["Error reading service file: " ++ e])) := by
  refine ⟨?_, ?_, ?_⟩
  · intro doc line c root src docPath fsEx readFile
    unfold provideDefinition
    cases hm : findServiceCallAtPosition doc line c with
    | some r =>
      dsimp only
      cases hr : resolveServiceFilePath root src fsEx r.1 with
      | none => exact ⟨by simp, fun h => absurd rfl h⟩
      | some p =>
        dsimp only
        by_cases hf : fsEx p
        · rw [if_pos hf]
          exact locateInFile_msgs readFile p r.2
        · rw [if_neg hf]
          exact ⟨by simp, fun _ => rfl⟩
    | none =>
      dsimp only
      cases hh : findControllerHandlerAtPosition (lineAtD doc line) c
          (inferApiNameFromDocument root src docPath) with
      | none => exact ⟨by simp, fun h => absurd rfl h⟩
      | some h =>
        dsimp only
        cases hr : resolveControllerFilePath root src fsEx h.nspace h.apiName
            h.controllerName with
        | none => exact ⟨by simp, fun hx => absurd rfl hx⟩
        | some p =>
          dsimp only
          by_cases hf : fsEx p
          · rw [if_pos hf]
            exact locateInFile_msgs readFile p h.actionName
          · rw [if_neg hf]
            exact ⟨by simp, fun _ => rfl⟩
  · intro readFile p name e he
    unfold locateInFile
    rw [he]
  · intro doc line c root src docPath fsEx readFile r p e hm hr hf he
    unfold provideDefinition
    rw [hm]
    dsimp only
    rw [hr]
    dsimp only
    rw [if_pos hf]
    unfold locateInFile
    rw [he]

theorem c10_error_handling_witness :
    provideDefinition ["strapi.service('api::a.b').m"] 0 27 (some "/w") "src" "/w/d.js"
        (fun _ => true) (fun _ => Except.error "boom")
      = (none, ["Error reading service file: boom"]) :=
  c10_error_handling.2.2 ["strapi.service('api::a.b').m"] 0 27 (some "/w") "src" "/w/d.js"
    (fun _ => true) (fun _ => Except.error "boom") ("api::a.b", "m")
    "/w/src/api/a/services/b.js" "boom" (by rfl) (by rfl) (by rfl) (by rfl)

end StrapiNav
